import Mathlib

/-!
Verification development for the botzilla command-dispatch layer
(`src/index.ts`).

The source is TypeScript running on a single-threaded JS event loop.  We
shallowly embed the parts of `index.ts` that the spec's testable
properties talk about:

* the JavaScript string operations used by `handleCommand`
  (`split("\n")`, `join("\n")`, `trim()`, `startsWith("> ")`), modelled
  as executable functions on `List Char` wrapped in `String`;
* the event-filtering pipeline of `handleCommand` (the spec's
  `normalize`), with `parseInt(event.origin_server_ts)` modelled as an
  `Option Int` (`none` = `NaN`; every JS `<` comparison with `NaN` is
  `false`);
* the dispatch loop of `handleCommand` over `config.handlers`, with the
  external settings store `settings.isModuleEnabled` as a parameter
  returning `Except String Bool` (`Except.error` models a rejected
  promise) and the observable behaviour recorded as a trace of gate
  queries, handler invocations and logged handler errors;
* the shutdown path `exitHandler`, as a small-step machine whose atomic
  steps are the code segments between `await` points, so that claims
  about re-entrant signals interleaving at `await` boundaries can be
  stated.
-/

namespace Botzilla

/-! ## JavaScript string primitives used by `handleCommand` -/

/-- JS `s.split(c)` on the character list: always returns at least one
(possibly empty) piece, `"".split("\n") = [""]`. -/
def splitOnChar (c : Char) : List Char → List (List Char)
  | [] => [[]]
  | x :: xs =>
    match splitOnChar c xs with
    | [] => [[]]
    | h :: t => if x = c then [] :: h :: t else (x :: h) :: t

/-- JS `parts.join(c)` on character lists. -/
def joinWith (c : Char) : List (List Char) → List Char
  | [] => []
  | [l] => l
  | l :: ls => l ++ c :: joinWith c ls

/-- JS `s.trim()`: drop whitespace from both ends. -/
def trimChars (l : List Char) : List Char :=
  ((l.dropWhile Char.isWhitespace).reverse.dropWhile Char.isWhitespace).reverse

/-- JS `body.trim()` at the `String` level. -/
def jsTrim (s : String) : String :=
  ⟨trimChars s.data⟩

/-- JS `line.startsWith("> ")`. -/
def startsWithQuote : List Char → Bool
  | '>' :: ' ' :: _ => true
  | _ => false

/-- The loop guard of the reply-stripping `while` on a line's
characters: `lines[0].startsWith("> ") || !lines[0].trim().length`. -/
def lineQuoteOrBlank (l : List Char) : Bool :=
  startsWithQuote l || (trimChars l).isEmpty

/-- The loop guard of the reply-stripping `while` at the `String`
level. -/
def isQuoteOrBlank (line : String) : Bool :=
  lineQuoteOrBlank line.data

/-- JS `body.split("\n")`. -/
def jsSplitLines (s : String) : List String :=
  (splitOnChar '\n' s.data).map String.mk

/-- JS `lines.join("\n")`. -/
def jsJoinLines (ls : List String) : String :=
  ⟨joinWith '\n' (ls.map String.data)⟩

/-- The reply-stripping step of `handleCommand` (lines 102-109 of
`index.ts`): split into lines, shift off leading quote/blank lines,
re-join.  The `while`+`shift` loop is exactly `List.dropWhile`. -/
def stripReply (body : String) : String :=
  jsJoinLines ((jsSplitLines body).dropWhile isQuoteOrBlank)

/-! ## Events and messages -/

/-- The `m.relates_to` content field; only the presence of its
`m.in_reply_to` sub-field matters to `handleCommand`. -/
structure RelatesTo where
  inReplyTo : Option Unit
deriving DecidableEq, Repr

/-- The content of a room-message event, restricted to the fields
`handleCommand` reads.  `body = none` models an absent `body` field;
`body = some ""` is the other falsy case of `if (!body)`. -/
structure Content where
  msgtype : String
  body : Option String
  relatesTo : Option RelatesTo
deriving DecidableEq, Repr

/-- An inbound room-message event.  `originServerTs` is the result of
`parseInt(event.origin_server_ts)`: `none` models `NaN` (absent or
unparseable field). -/
structure Event where
  content : Option Content
  originServerTs : Option Int
  sender : String
deriving DecidableEq, Repr

/-- The normalized `Message` handed to module handlers. -/
structure Message where
  body : String
  sender : String
  room : String
  event : Event
deriving DecidableEq, Repr

/-- JS `eventTime < bound` where `eventTime` may be `NaN`:
any comparison with `NaN` is `false`. -/
def jsLtNum : Option Int → Int → Bool
  | some a, b => a < b
  | none, _ => false

/-- The event-filtering pipeline of `handleCommand` (lines 67-129 of
`index.ts`), as the spec's `normalize`: returns the `Message` to
dispatch, or `none` for a silent drop.  The checks appear in source
order: missing content, `eventTime < startTime`,
`typeof roomJoinedAt[room] === "number" && eventTime < roomJoinedAt[room]`,
non-`m.text` msgtype, falsy body, reply stripping, self-sender,
trimmed-empty body. -/
def normalize (startTime : Int) (roomJoinedAt : String → Option Int)
    (selfUserId : String) (room : String) (event : Event) : Option Message :=
  match event.content with
  | none => none
  | some content =>
    if jsLtNum event.originServerTs startTime then none
    else if (match roomJoinedAt room with
             | some j => jsLtNum event.originServerTs j
             | none => false) then none
    else if content.msgtype ≠ "m.text" then none
    else match content.body with
      | none => none
      | some body0 =>
        if body0 = "" then none
        else
          let body1 :=
            match content.relatesTo with
            | some rel =>
              match rel.inReplyTo with
              | some _ => stripReply body0
              | none => body0
            | none => body0
          if event.sender = selfUserId then none
          else
            let body2 := jsTrim body1
            if body2 = "" then none
            else some { body := body2, sender := event.sender, room := room, event := event }

/-! ## The dispatch loop

Lines 131-146 of `index.ts`: iterate over `config.handlers` in order;
for a non-`"admin"` module first `await settings.isModuleEnabled(room,
moduleName)` (a rejected lookup propagates out of `handleCommand`, a
`false` result skips the handler); then `await handler(...)` inside
`try`/`catch`, logging a thrown/rejected handler error and continuing.

A handler's only observable behaviour here is whether its invocation
throws/rejects, recorded in the registration entry; the observable
behaviour of the loop is a trace of gate queries, invocations and
logged handler errors, plus the error (if any) that escapes to the
caller. -/

/-- One entry of `config.handlers`: the module name and whether
`await handler(client, msg, extra)` throws/rejects for this message. -/
structure HandlerEntry where
  moduleName : String
  throws : Bool
deriving DecidableEq, Repr

/-- Observable steps of the dispatch loop. -/
inductive TraceEv where
  | gateQuery (room moduleName : String)
  | invoke (moduleName : String) (msg : Message)
  | logError (moduleName : String)
deriving DecidableEq, Repr

/-- The `try { await handler(...) } catch (err) { console.error(...) }`
body: the handler is invoked, and a throwing handler additionally
produces a `console.error` log — nothing escapes. -/
def invokeEvents (h : HandlerEntry) (msg : Message) : List TraceEv :=
  TraceEv.invoke h.moduleName msg ::
    (if h.throws then [TraceEv.logError h.moduleName] else [])

/-- The dispatch loop.  Returns the trace of observable steps and the
error that escapes `handleCommand` (`some e` iff an `isModuleEnabled`
lookup rejected; the loop stops there). -/
def dispatchHandlers (isModuleEnabled : String → String → Except String Bool)
    (room : String) (msg : Message) : List HandlerEntry → List TraceEv × Option String
  | [] => ([], none)
  | h :: rest =>
    if h.moduleName = "admin" then
      let r := dispatchHandlers isModuleEnabled room msg rest
      (invokeEvents h msg ++ r.1, r.2)
    else
      match isModuleEnabled room h.moduleName with
      | .error e => ([TraceEv.gateQuery room h.moduleName], some e)
      | .ok false =>
        let r := dispatchHandlers isModuleEnabled room msg rest
        (TraceEv.gateQuery room h.moduleName :: r.1, r.2)
      | .ok true =>
        let r := dispatchHandlers isModuleEnabled room msg rest
        (TraceEv.gateQuery room h.moduleName :: (invokeEvents h msg ++ r.1), r.2)

/-- A handler entry passes the gate for `room`: it is the `"admin"`
module, or the settings store answers `true`. -/
def enabledFor (isModuleEnabled : String → String → Except String Bool)
    (room : String) (h : HandlerEntry) : Prop :=
  h.moduleName = "admin" ∨ isModuleEnabled room h.moduleName = Except.ok true

/-- The settings store never rejects for this room (normal operation of
the external key-value service). -/
def gateTotal (isModuleEnabled : String → String → Except String Bool)
    (room : String) : Prop :=
  ∀ moduleName, ∃ b, isModuleEnabled room moduleName = Except.ok b

/-! ## The shutdown path

`exitHandler` (lines 256-280 of `index.ts`) runs on the single-threaded
JS event loop, so the code between two `await` points is atomic.  We
model it as a small-step machine: one step per such segment.  The shared
mutable cell `CLIENT` is the `Option ClientRef` threaded through the
steps; the transport calls made by a segment are emitted as actions.
The first segment (function entry up to `await wait(1000)`) checks
`CLIENT === null`, captures it into `_client`, sets `CLIENT = null` and
calls `_client.stop()`; no later segment ever writes `CLIENT`.  The
presence-poll loop consults an oracle `online n` telling whether the
`n`-th `getPresenceStatus` still reports `"online"`. -/

/-- An abstract handle to the started matrix client stored in `CLIENT`. -/
structure ClientRef where
  id : Nat
deriving DecidableEq, Repr

/-- Transport/process operations `exitHandler` can perform. -/
inductive ExitAction where
  | stop
  | presenceOffline
  | presencePoll
  | procExit
deriving DecidableEq, Repr

/-- Where one invocation of `exitHandler` is suspended. -/
inductive ExitPC where
  /-- at function entry (the synchronous head has not run yet) -/
  | start
  /-- suspended at `await wait(1000)` -/
  | grace
  /-- suspended at `await _client.setPresenceStatus("offline", ...)` -/
  | setWait
  /-- suspended at the `n`-th `await _client.getPresenceStatus()` -/
  | pollWait (n : Nat)
  /-- saw `"online"` on poll `n`; suspended at `await wait(11000)` -/
  | sleep (n : Nat)
  /-- returned (or exited) -/
  | done
deriving DecidableEq, Repr

/-- One atomic segment of `exitHandler`: from the given suspension
point, run to the next `await` (or to completion).  Returns the new
value of `CLIENT`, the new suspension point and the actions performed. -/
def exitStep (online : Nat → Bool) (client : Option ClientRef) :
    ExitPC → Option ClientRef × ExitPC × List ExitAction
  | .start =>
    match client with
    | none => (none, .done, [])
    | some _ => (none, .grace, [ExitAction.stop])
  | .grace => (client, .setWait, [ExitAction.presenceOffline])
  | .setWait => (client, .pollWait 0, [ExitAction.presencePoll])
  | .pollWait n =>
    if online n then (client, .sleep n, [])
    else (client, .done, [ExitAction.procExit])
  | .sleep n => (client, .pollWait (n + 1), [ExitAction.presencePoll])
  | .done => (client, .done, [])

/-- Two concurrent invocations of `exitHandler` (two delivered signals)
over the shared `CLIENT` cell, with the actions each has performed. -/
structure ExitSys where
  client : Option ClientRef
  pc1 : ExitPC
  pc2 : ExitPC
  acts1 : List ExitAction
  acts2 : List ExitAction
deriving Repr

/-- Scheduler step: `true` resumes the first invocation, `false` the
second. -/
def sysStep (online : Nat → Bool) (s : ExitSys) (who : Bool) : ExitSys :=
  if who then
    { s with client := (exitStep online s.client s.pc1).1,
             pc1 := (exitStep online s.client s.pc1).2.1,
             acts1 := s.acts1 ++ (exitStep online s.client s.pc1).2.2 }
  else
    { s with client := (exitStep online s.client s.pc2).1,
             pc2 := (exitStep online s.client s.pc2).2.1,
             acts2 := s.acts2 ++ (exitStep online s.client s.pc2).2.2 }

/-- Run the two invocations under an arbitrary interleaving. -/
def runExit (online : Nat → Bool) (sched : List Bool) (s : ExitSys) : ExitSys :=
  sched.foldl (sysStep online) s

/-! ## Concrete sample data (used to instantiate the general theorems) -/

/-- A well-formed reply event: quoted block, blank line, then the
command, with the `m.in_reply_to` marker set. -/
def replyEvent : Event :=
  { content := some { msgtype := "m.text", body := some "> a\n> b\n\nhello",
                      relatesTo := some { inReplyTo := some () } },
    originServerTs := some 50, sender := "alice" }

/-- A well-formed text event whose `origin_server_ts` failed to parse
(`parseInt` returned `NaN`). -/
def nanEvent : Event :=
  { content := some { msgtype := "m.text", body := some "hi", relatesTo := none },
    originServerTs := none, sender := "alice" }

/-- A sample normalized message. -/
def sampleMsg : Message :=
  { body := "hi", sender := "alice", room := "r", event := nanEvent }

/-- A settings store that enables every module. -/
def gateAllTrue : String → String → Except String Bool :=
  fun _ _ => Except.ok true

/-- A settings store that disables every module. -/
def gateAllFalse : String → String → Except String Bool :=
  fun _ _ => Except.ok false

/-- A settings store whose lookup rejects for module `"b"` and answers
`true` otherwise. -/
def gateErrOnB : String → String → Except String Bool :=
  fun _ moduleName => if moduleName = "b" then Except.error "boom" else Except.ok true

/-! ## Lemmas about the JS string primitives -/

theorem splitOnChar_ne_nil (c : Char) (l : List Char) : splitOnChar c l ≠ [] := by
  cases l with
  | nil => simp [splitOnChar]
  | cons x xs =>
    cases hs : splitOnChar c xs with
    | nil => simp [splitOnChar, hs]
    | cons h t => by_cases hx : x = c <;> simp [splitOnChar, hs, hx]

theorem joinWith_cons_cons (c x : Char) (h : List Char) (t : List (List Char)) :
    joinWith c ((x :: h) :: t) = x :: joinWith c (h :: t) := by
  cases t <;> simp [joinWith]

theorem joinWith_splitOnChar (c : Char) (l : List Char) :
    joinWith c (splitOnChar c l) = l := by
  induction l with
  | nil => simp [splitOnChar, joinWith]
  | cons x xs ih =>
    cases hs : splitOnChar c xs with
    | nil => exact absurd hs (splitOnChar_ne_nil c xs)
    | cons h t =>
      rw [hs] at ih
      by_cases hx : x = c
      · subst hx
        simp only [splitOnChar, hs, if_pos rfl]
        simp [joinWith, ih]
      · simp only [splitOnChar, hs, if_neg hx]
        rw [joinWith_cons_cons, ih]

theorem not_mem_splitOnChar (c : Char) (l : List Char) :
    ∀ m ∈ splitOnChar c l, c ∉ m := by
  induction l with
  | nil =>
    intro m hm
    simp [splitOnChar] at hm
    subst hm
    simp
  | cons x xs ih =>
    intro m hm
    cases hs : splitOnChar c xs with
    | nil => exact absurd hs (splitOnChar_ne_nil c xs)
    | cons h t =>
      simp only [splitOnChar, hs] at hm
      rw [hs] at ih
      by_cases hx : x = c
      · rw [if_pos hx] at hm
        rcases List.mem_cons.mp hm with rfl | hm2
        · simp
        · exact ih m hm2
      · rw [if_neg hx] at hm
        rcases List.mem_cons.mp hm with rfl | hm2
        · intro hcm
          rcases List.mem_cons.mp hcm with h1 | h2
          · exact hx h1.symm
          · exact ih h (List.mem_cons_self h t) h2
        · exact ih m (List.mem_cons_of_mem h hm2)

theorem splitOnChar_single (c : Char) (l : List Char) (h : c ∉ l) :
    splitOnChar c l = [l] := by
  induction l with
  | nil => simp [splitOnChar]
  | cons x xs ih =>
    have hx : ¬ x = c := fun e => h (e ▸ List.mem_cons_self x xs)
    have hxs : c ∉ xs := fun hc => h (List.mem_cons_of_mem x hc)
    simp [splitOnChar, ih hxs, hx]

theorem splitOnChar_append_cons (c : Char) (l m : List Char) (hl : c ∉ l) :
    splitOnChar c (l ++ c :: m) = l :: splitOnChar c m := by
  induction l with
  | nil =>
    cases hs : splitOnChar c m with
    | nil => exact absurd hs (splitOnChar_ne_nil c m)
    | cons h t => simp [splitOnChar, hs]
  | cons x xs ih =>
    have hx : ¬ x = c := fun e => hl (e ▸ List.mem_cons_self x xs)
    have hxs : c ∉ xs := fun hc => hl (List.mem_cons_of_mem x hc)
    simp [splitOnChar, List.cons_append, ih hxs, hx]

theorem splitOnChar_joinWith (c : Char) (ls : List (List Char)) (hne : ls ≠ [])
    (hmem : ∀ m ∈ ls, c ∉ m) : splitOnChar c (joinWith c ls) = ls := by
  induction ls with
  | nil => exact absurd rfl hne
  | cons l ls ih =>
    cases ls with
    | nil =>
      show splitOnChar c (joinWith c [l]) = [l]
      simp only [joinWith]
      exact splitOnChar_single c l (hmem l (List.mem_cons_self l []))
    | cons l2 ls2 =>
      have hj : joinWith c (l :: l2 :: ls2) = l ++ c :: joinWith c (l2 :: ls2) := rfl
      rw [hj, splitOnChar_append_cons c l _ (hmem l (List.mem_cons_self l _)),
        ih (List.cons_ne_nil l2 ls2) (fun m hm => hmem m (List.mem_cons_of_mem l hm))]

theorem head?_dropWhile_eq_some {α : Type} (p : α → Bool) (l : List α) (a : α)
    (h : (l.dropWhile p).head? = some a) : p a = false := by
  induction l with
  | nil => simp [List.dropWhile] at h
  | cons x xs ih =>
    by_cases hp : p x = true
    · rw [List.dropWhile_cons_of_pos hp] at h
      exact ih h
    · rw [List.dropWhile_cons_of_neg hp] at h
      simp only [List.head?_cons, Option.some.injEq] at h
      subst h
      exact Bool.not_eq_true _ ▸ hp

theorem dropWhile_dropWhile_eq {α : Type} (p : α → Bool) (l : List α) :
    (l.dropWhile p).dropWhile p = l.dropWhile p := by
  cases hd : l.dropWhile p with
  | nil => rfl
  | cons h t =>
    have hph : p h = false := head?_dropWhile_eq_some p l h (by rw [hd]; rfl)
    exact List.dropWhile_cons_of_neg (by simp [hph])

theorem stripReply_eq_mk (b : String) :
    stripReply b
      = ⟨joinWith '\n' ((splitOnChar '\n' b.data).dropWhile lineQuoteOrBlank)⟩ := by
  unfold stripReply jsSplitLines jsJoinLines
  rw [List.dropWhile_map, List.map_map,
    show String.data ∘ String.mk = id from rfl, List.map_id]
  rfl

theorem stripLines_idem (l : List Char) :
    joinWith '\n'
      ((splitOnChar '\n'
          (joinWith '\n' ((splitOnChar '\n' l).dropWhile lineQuoteOrBlank))).dropWhile
        lineQuoteOrBlank)
      = joinWith '\n' ((splitOnChar '\n' l).dropWhile lineQuoteOrBlank) := by
  cases hr : (splitOnChar '\n' l).dropWhile lineQuoteOrBlank with
  | nil => rfl
  | cons h t =>
    have hsub : ∀ m ∈ h :: t, '\n' ∉ m := by
      intro m hm
      have hm2 : m ∈ (splitOnChar '\n' l).dropWhile lineQuoteOrBlank := by
        rw [hr]; exact hm
      exact not_mem_splitOnChar '\n' l m
        (List.Sublist.mem hm2 (List.dropWhile_sublist _))
    rw [splitOnChar_joinWith '\n' (h :: t) (List.cons_ne_nil h t) hsub, ← hr,
      dropWhile_dropWhile_eq]

/-! ## Lemmas about the dispatch loop -/

theorem dispatchHandlers_err_none
    (gate : String → String → Except String Bool) (room : String) (msg : Message)
    (hs : List HandlerEntry) (htotal : gateTotal gate room) :
    (dispatchHandlers gate room msg hs).2 = none := by
  induction hs with
  | nil => rfl
  | cons h rest ih =>
    by_cases hadm : h.moduleName = "admin"
    · simp only [dispatchHandlers, if_pos hadm]
      exact ih
    · obtain ⟨b, hb⟩ := htotal h.moduleName
      cases b <;> simp only [dispatchHandlers, if_neg hadm, hb] <;> exact ih

theorem mem_dispatch_of_enabled
    (gate : String → String → Except String Bool) (room : String) (msg : Message)
    (hs : List HandlerEntry) (h : HandlerEntry)
    (htotal : gateTotal gate room) (hmem : h ∈ hs) (hen : enabledFor gate room h) :
    ∀ e ∈ invokeEvents h msg, e ∈ (dispatchHandlers gate room msg hs).1 := by
  induction hs with
  | nil => cases hmem
  | cons h0 rest ih =>
    intro e he
    rcases List.mem_cons.mp hmem with rfl | hmem2
    · by_cases hadm : h.moduleName = "admin"
      · simp only [dispatchHandlers, if_pos hadm]
        exact List.mem_append_left _ he
      · rcases hen with hen1 | hen2
        · exact absurd hen1 hadm
        · simp only [dispatchHandlers, if_neg hadm, hen2]
          exact List.mem_cons_of_mem _ (List.mem_append_left _ he)
    · have hrec := ih hmem2 e he
      by_cases hadm : h0.moduleName = "admin"
      · simp only [dispatchHandlers, if_pos hadm]
        exact List.mem_append_right _ hrec
      · obtain ⟨b, hb⟩ := htotal h0.moduleName
        cases b
        · simp only [dispatchHandlers, if_neg hadm, hb]
          exact List.mem_cons_of_mem _ hrec
        · simp only [dispatchHandlers, if_neg hadm, hb]
          exact List.mem_cons_of_mem _ (List.mem_append_right _ hrec)

theorem gateQuery_mem_ne_admin
    (gate : String → String → Except String Bool) (room : String) (msg : Message)
    (hs : List HandlerEntry) (r mn : String)
    (hmem : TraceEv.gateQuery r mn ∈ (dispatchHandlers gate room msg hs).1) :
    mn ≠ "admin" := by
  induction hs with
  | nil => simp [dispatchHandlers] at hmem
  | cons h rest ih =>
    by_cases hadm : h.moduleName = "admin"
    · simp only [dispatchHandlers, if_pos hadm] at hmem
      rcases List.mem_append.mp hmem with h1 | h2
      · cases hth : h.throws <;> simp [invokeEvents, hth] at h1
      · exact ih h2
    · cases hg : gate room h.moduleName with
      | error e0 =>
        simp only [dispatchHandlers, if_neg hadm, hg, List.mem_singleton,
          TraceEv.gateQuery.injEq] at hmem
        exact hmem.2 ▸ hadm
      | ok b =>
        cases b
        · simp only [dispatchHandlers, if_neg hadm, hg, List.mem_cons,
            TraceEv.gateQuery.injEq] at hmem
          rcases hmem with h1 | h2
          · exact h1.2 ▸ hadm
          · exact ih h2
        · simp only [dispatchHandlers, if_neg hadm, hg, List.mem_cons,
            TraceEv.gateQuery.injEq] at hmem
          rcases hmem with h1 | h2
          · exact h1.2 ▸ hadm
          · rcases List.mem_append.mp h2 with h3 | h4
            · cases hth : h.throws <;> simp [invokeEvents, hth] at h3
            · exact ih h4

theorem invoke_not_mem_of_disabled
    (gate : String → String → Except String Bool) (room : String) (msg : Message)
    (hs : List HandlerEntry) (name : String)
    (hne : name ≠ "admin") (hg : gate room name = Except.ok false) :
    TraceEv.invoke name msg ∉ (dispatchHandlers gate room msg hs).1 := by
  induction hs with
  | nil => simp [dispatchHandlers]
  | cons h rest ih =>
    intro hmem
    by_cases hadm : h.moduleName = "admin"
    · simp only [dispatchHandlers, if_pos hadm] at hmem
      rcases List.mem_append.mp hmem with h1 | h2
      · cases hth : h.throws <;> simp [invokeEvents, hth] at h1
        · exact hne (h1.trans hadm)
        · exact hne (h1.trans hadm)
      · exact ih h2
    · cases hg0 : gate room h.moduleName with
      | error e0 =>
        simp [dispatchHandlers, hadm, hg0] at hmem
      | ok b =>
        cases b
        · simp only [dispatchHandlers, if_neg hadm, hg0, List.mem_cons] at hmem
          rcases hmem with h1 | h2
          · simp at h1
          · exact ih h2
        · simp only [dispatchHandlers, if_neg hadm, hg0, List.mem_cons] at hmem
          rcases hmem with h1 | h2
          · simp at h1
          · rcases List.mem_append.mp h2 with h3 | h4
            · cases hth : h.throws <;> simp [invokeEvents, hth] at h3
              · rw [h3] at hg
                rw [hg] at hg0
                simp at hg0
              · rw [h3] at hg
                rw [hg] at hg0
                simp at hg0
            · exact ih h4

theorem dispatchHandlers_append_ok
    (gate : String → String → Except String Bool) (room : String) (msg : Message)
    (xs ys : List HandlerEntry)
    (hok : (dispatchHandlers gate room msg xs).2 = none) :
    dispatchHandlers gate room msg (xs ++ ys)
      = ((dispatchHandlers gate room msg xs).1 ++ (dispatchHandlers gate room msg ys).1,
         (dispatchHandlers gate room msg ys).2) := by
  induction xs with
  | nil => simp [dispatchHandlers]
  | cons h rest ih =>
    by_cases hadm : h.moduleName = "admin"
    · have hok' : (dispatchHandlers gate room msg rest).2 = none := by
        simpa only [dispatchHandlers, if_pos hadm] using hok
      rw [List.cons_append]
      simp only [dispatchHandlers, if_pos hadm, ih hok']
      simp [List.append_assoc]
    · cases hg : gate room h.moduleName with
      | error e0 =>
        simp [dispatchHandlers, hadm, hg] at hok
      | ok b =>
        cases b
        · have hok' : (dispatchHandlers gate room msg rest).2 = none := by
            simpa only [dispatchHandlers, if_neg hadm, hg] using hok
          rw [List.cons_append]
          simp only [dispatchHandlers, if_neg hadm, hg, ih hok']
          simp
        · have hok' : (dispatchHandlers gate room msg rest).2 = none := by
            simpa only [dispatchHandlers, if_neg hadm, hg] using hok
          rw [List.cons_append]
          simp only [dispatchHandlers, if_neg hadm, hg, ih hok']
          simp [List.append_assoc]

/-! ## Lemmas about the shutdown path -/

theorem exitStep_client_none (online : Nat → Bool) (pc : ExitPC) :
    (exitStep online none pc).1 = none := by
  cases pc with
  | start => rfl
  | grace => rfl
  | setWait => rfl
  | pollWait n => by_cases h : online n <;> simp [exitStep, h]
  | sleep n => rfl
  | done => rfl

theorem runExit_acts2_nil (online : Nat → Bool) (sched : List Bool) (s : ExitSys)
    (h1 : s.client = none) (h2 : s.pc2 = ExitPC.start ∨ s.pc2 = ExitPC.done)
    (h3 : s.acts2 = []) : (runExit online sched s).acts2 = [] := by
  induction sched generalizing s with
  | nil => exact h3
  | cons w sched ih =>
    show (runExit online sched (sysStep online s w)).acts2 = []
    cases w with
    | true =>
      refine ih (sysStep online s true) ?_ ?_ ?_
      · show (exitStep online s.client s.pc1).1 = none
        rw [h1]
        exact exitStep_client_none online s.pc1
      · exact h2
      · exact h3
    | false =>
      rcases h2 with h2 | h2
      · refine ih (sysStep online s false) ?_ ?_ ?_
        · show (exitStep online s.client s.pc2).1 = none
          rw [h1, h2]
          rfl
        · show (exitStep online s.client s.pc2).2.1 = ExitPC.start ∨
            (exitStep online s.client s.pc2).2.1 = ExitPC.done
          rw [h1, h2]
          exact Or.inr rfl
        · show s.acts2 ++ (exitStep online s.client s.pc2).2.2 = []
          rw [h1, h2, h3]
          rfl
      · refine ih (sysStep online s false) ?_ ?_ ?_
        · show (exitStep online s.client s.pc2).1 = none
          rw [h1, h2]
          rfl
        · show (exitStep online s.client s.pc2).2.1 = ExitPC.start ∨
            (exitStep online s.client s.pc2).2.1 = ExitPC.done
          rw [h1, h2]
          exact Or.inr rfl
        · show s.acts2 ++ (exitStep online s.client s.pc2).2.2 = []
          rw [h1, h2, h3]
          rfl

/-! ## The claims -/

/-- Claim C4: for every inbound room-message event whose parsed
`origin_server_ts` is strictly less than the process start time captured
at client creation, normalization returns `none` (the event is silently
dropped, so no handler is invoked for it). -/
theorem claim_C4_drop_before_start_time
    (startTime : Int) (roomJoinedAt : String → Option Int)
    (selfUserId room : String) (event : Event) (t : Int)
    (hts : event.originServerTs = some t) (hlt : t < startTime) :
    normalize startTime roomJoinedAt selfUserId room event = none := by
  cases hc : event.content with
  | none => simp [normalize, hc]
  | some content => simp [normalize, hc, hts, jsLtNum, hlt]

theorem claim_C4_drop_before_start_time_witness :
    normalize 100 (fun _ => none) "bot" "r"
      { content := some { msgtype := "m.text", body := some "hi", relatesTo := none },
        originServerTs := some 50, sender := "alice" } = none :=
  claim_C4_drop_before_start_time 100 (fun _ => none) "bot" "r" _ 50 rfl (by decide)

/-- Claim C5: for every inbound room-message event whose room has a
recorded join timestamp and whose parsed `origin_server_ts` is strictly
less than that join timestamp, normalization returns `none`, regardless
of how the event's timestamp compares to the process start time. -/
theorem claim_C5_drop_before_room_join
    (startTime : Int) (roomJoinedAt : String → Option Int) (selfUserId room : String)
    (event : Event) (t j : Int)
    (hj : roomJoinedAt room = some j) (hts : event.originServerTs = some t)
    (hlt : t < j) :
    normalize startTime roomJoinedAt selfUserId room event = none := by
  cases hc : event.content with
  | none => simp [normalize, hc]
  | some content =>
    by_cases h1 : t < startTime
    · simp [normalize, hc, hts, jsLtNum, h1]
    · simp [normalize, hc, hts, hj, jsLtNum, h1, hlt]

theorem claim_C5_drop_before_room_join_witness :
    normalize 0 (fun _ => some 100) "bot" "r"
      { content := some { msgtype := "m.text", body := some "hi", relatesTo := none },
        originServerTs := some 50, sender := "alice" } = none :=
  claim_C5_drop_before_room_join 0 (fun _ => some 100) "bot" "r" _ 50 100 rfl rfl
    (by decide)

/-- Claim C10: for every inbound event whose `origin_server_ts` does not
parse to a number (`parseInt` yields `NaN`, modelled `none`), neither the
process-start-time filter nor the per-room join-time filter drops the
event — the normalization result does not depend on `startTime` or
`roomJoinedAt` at all — and such an event can reach dispatch, as the
concrete instance shows. -/
theorem claim_C10_nan_timestamp_passes_time_filters :
    (∀ (st1 st2 : Int) (rja1 rja2 : String → Option Int) (selfUserId room : String)
        (event : Event), event.originServerTs = none →
        normalize st1 rja1 selfUserId room event
          = normalize st2 rja2 selfUserId room event) ∧
    normalize 100 (fun _ => some 200) "bot" "r" nanEvent = some sampleMsg := by
  constructor
  · intro st1 st2 rja1 rja2 selfUserId room event hts
    cases hc : event.content with
    | none => simp [normalize, hc]
    | some content =>
      simp only [normalize, hc, hts]
      cases h1 : rja1 room <;> cases h2 : rja2 room <;> simp [jsLtNum]
  · rfl

theorem claim_C10_nan_timestamp_passes_time_filters_witness :
    normalize 5 (fun _ => some 7) "bot" "r" nanEvent
      = normalize 999 (fun _ => none) "bot" "r" nanEvent :=
  claim_C10_nan_timestamp_passes_time_filters.1 5 999 (fun _ => some 7) (fun _ => none)
    "bot" "r" nanEvent rfl

/-- Claim C6: for every body, the reply-stripping step removes exactly
the consecutive leading lines that start with `"> "` or are blank — the
split lines decompose into a dropped prefix of quote/blank lines and a
kept remainder whose first line (if any) is neither — and joins the
remainder with newlines; concretely, an otherwise-acceptable reply event
with body `"> a\n> b\n\nhello"` normalizes to a `Message` with body
exactly `"hello"`. -/
theorem claim_C6_reply_stripping_drops_leading_quote_block :
    (∀ b : String, ∃ pre rest : List String,
        jsSplitLines b = pre ++ rest ∧
        (∀ l ∈ pre, isQuoteOrBlank l = true) ∧
        (∀ l, rest.head? = some l → isQuoteOrBlank l = false) ∧
        stripReply b = jsJoinLines rest) ∧
    normalize 0 (fun _ => none) "bot" "r" replyEvent
      = some { body := "hello", sender := "alice", room := "r", event := replyEvent } := by
  constructor
  · intro b
    exact ⟨(jsSplitLines b).takeWhile isQuoteOrBlank,
      (jsSplitLines b).dropWhile isQuoteOrBlank,
      (List.takeWhile_append_dropWhile isQuoteOrBlank (jsSplitLines b)).symm,
      fun l hl => List.mem_takeWhile_imp hl,
      fun l hl => head?_dropWhile_eq_some isQuoteOrBlank (jsSplitLines b) l hl,
      rfl⟩
  · rfl

theorem claim_C6_reply_stripping_drops_leading_quote_block_witness :
    normalize 0 (fun _ => none) "bot" "r" replyEvent
      = some { body := "hello", sender := "alice", room := "r", event := replyEvent } :=
  claim_C6_reply_stripping_drops_leading_quote_block.2

/-- Claim C7: reply-stripping is idempotent — a body whose first line
neither starts with `"> "` nor is blank is returned unchanged, and
`stripReply (stripReply b) = stripReply b` for every body `b`. -/
theorem claim_C7_strip_idempotent :
    (∀ (b l0 : String), (jsSplitLines b).head? = some l0 → isQuoteOrBlank l0 = false →
        stripReply b = b) ∧
    (∀ b : String, stripReply (stripReply b) = stripReply b) := by
  constructor
  · intro b l0 h1 h2
    rw [stripReply_eq_mk]
    cases hs : splitOnChar '\n' b.data with
    | nil => exact absurd hs (splitOnChar_ne_nil _ _)
    | cons h t =>
      have hl0 : l0 = String.mk h := by
        unfold jsSplitLines at h1
        rw [hs] at h1
        simp only [List.map_cons, List.head?_cons, Option.some.injEq] at h1
        exact h1.symm
      have hq : lineQuoteOrBlank h = false := by
        rw [hl0] at h2
        exact h2
      have hq2 : ¬ lineQuoteOrBlank h = true := by simp [hq]
      rw [List.dropWhile_cons_of_neg hq2, ← hs, joinWith_splitOnChar]
  · intro b
    rw [stripReply_eq_mk b, stripReply_eq_mk]
    exact congrArg String.mk (stripLines_idem b.data)

theorem claim_C7_strip_idempotent_witness :
    stripReply "hello" = "hello" ∧
    stripReply (stripReply "> q\nhi") = stripReply "> q\nhi" :=
  ⟨claim_C7_strip_idempotent.1 "hello" "hello" (by decide) (by decide),
   claim_C7_strip_idempotent.2 ("> q\nhi")⟩

/-- Claim C1: if the invocation of an enabled handler throws or rejects,
the dispatcher catches and logs the failure, still invokes every
subsequent gate-enabled handler with the same `Message`, and the failure
never surfaces to the caller of dispatch. -/
theorem claim_C1_handler_failure_isolated
    (gate : String → String → Except String Bool) (room : String) (msg : Message)
    (xs ys : List HandlerEntry) (a : HandlerEntry)
    (htotal : gateTotal gate room) (hen : enabledFor gate room a)
    (hthrows : a.throws = true) :
    TraceEv.invoke a.moduleName msg ∈ (dispatchHandlers gate room msg (xs ++ a :: ys)).1 ∧
    TraceEv.logError a.moduleName ∈ (dispatchHandlers gate room msg (xs ++ a :: ys)).1 ∧
    (∀ h ∈ ys, enabledFor gate room h →
      TraceEv.invoke h.moduleName msg ∈ (dispatchHandlers gate room msg (xs ++ a :: ys)).1) ∧
    (dispatchHandlers gate room msg (xs ++ a :: ys)).2 = none := by
  have hamem : a ∈ xs ++ a :: ys := List.mem_append_right xs (List.mem_cons_self a ys)
  refine ⟨?_, ?_, ?_, dispatchHandlers_err_none gate room msg _ htotal⟩
  · exact mem_dispatch_of_enabled gate room msg _ a htotal hamem hen _
      (List.mem_cons_self _ _)
  · exact mem_dispatch_of_enabled gate room msg _ a htotal hamem hen _
      (by simp [invokeEvents, hthrows])
  · intro h hmem hen2
    exact mem_dispatch_of_enabled gate room msg _ h htotal
      (List.mem_append_right xs (List.mem_cons_of_mem a hmem)) hen2 _
      (List.mem_cons_self _ _)

theorem claim_C1_handler_failure_isolated_witness :
    TraceEv.invoke "m1" sampleMsg
        ∈ (dispatchHandlers gateAllTrue "r" sampleMsg
            ([] ++ ⟨"m1", true⟩ :: [⟨"m2", false⟩])).1 ∧
    TraceEv.logError "m1"
        ∈ (dispatchHandlers gateAllTrue "r" sampleMsg
            ([] ++ ⟨"m1", true⟩ :: [⟨"m2", false⟩])).1 ∧
    TraceEv.invoke "m2" sampleMsg
        ∈ (dispatchHandlers gateAllTrue "r" sampleMsg
            ([] ++ ⟨"m1", true⟩ :: [⟨"m2", false⟩])).1 ∧
    (dispatchHandlers gateAllTrue "r" sampleMsg
        ([] ++ ⟨"m1", true⟩ :: [⟨"m2", false⟩])).2 = none := by
  have h := claim_C1_handler_failure_isolated gateAllTrue "r" sampleMsg []
    [⟨"m2", false⟩] ⟨"m1", true⟩ (fun _ => ⟨true, rfl⟩) (Or.inr rfl) rfl
  exact ⟨h.1, h.2.1,
    h.2.2.1 ⟨"m2", false⟩ (List.mem_cons_self _ _) (Or.inr rfl), h.2.2.2⟩

/-- Claim C2: the Settings Gate is never consulted for the `"admin"`
module (no gate query for `"admin"` ever appears in the dispatch trace),
and every handler registered under `"admin"` is invoked regardless of
the stored per-room enable/disable state. -/
theorem claim_C2_admin_ungated
    (gate : String → String → Except String Bool) (room : String) (msg : Message)
    (hs : List HandlerEntry) (htotal : gateTotal gate room) :
    (∀ r mn, TraceEv.gateQuery r mn ∈ (dispatchHandlers gate room msg hs).1 →
      mn ≠ "admin") ∧
    (∀ h ∈ hs, h.moduleName = "admin" →
      TraceEv.invoke "admin" msg ∈ (dispatchHandlers gate room msg hs).1) := by
  constructor
  · intro r mn hmem
    exact gateQuery_mem_ne_admin gate room msg hs r mn hmem
  · intro h hmem hadm
    have hv := mem_dispatch_of_enabled gate room msg hs h htotal hmem (Or.inl hadm) _
      (List.mem_cons_self _ _)
    rwa [hadm] at hv

theorem claim_C2_admin_ungated_witness :
    TraceEv.invoke "admin" sampleMsg
      ∈ (dispatchHandlers gateAllFalse "r" sampleMsg
          [⟨"other", false⟩, ⟨"admin", false⟩]).1 :=
  (claim_C2_admin_ungated gateAllFalse "r" sampleMsg _ (fun _ => ⟨false, rfl⟩)).2
    ⟨"admin", false⟩ (List.mem_cons_of_mem _ (List.mem_cons_self _ _)) rfl

/-- Claim C3: a non-`"admin"` module for which the Settings Gate answers
`false` is never invoked for this message (zero `invoke` events for that
module name in the trace), while dispatch still proceeds: every
gate-enabled handler in the list is invoked, and no error surfaces. -/
theorem claim_C3_disabled_module_not_invoked
    (gate : String → String → Except String Bool) (room : String) (msg : Message)
    (hs : List HandlerEntry) (name : String)
    (hne : name ≠ "admin") (hg : gate room name = Except.ok false)
    (htotal : gateTotal gate room) :
    TraceEv.invoke name msg ∉ (dispatchHandlers gate room msg hs).1 ∧
    (∀ h ∈ hs, enabledFor gate room h →
      TraceEv.invoke h.moduleName msg ∈ (dispatchHandlers gate room msg hs).1) ∧
    (dispatchHandlers gate room msg hs).2 = none :=
  ⟨invoke_not_mem_of_disabled gate room msg hs name hne hg,
    fun h hmem hen => mem_dispatch_of_enabled gate room msg hs h htotal hmem hen _
      (List.mem_cons_self _ _),
    dispatchHandlers_err_none gate room msg hs htotal⟩

theorem claim_C3_disabled_module_not_invoked_witness :
    TraceEv.invoke "mods" sampleMsg
        ∉ (dispatchHandlers gateAllFalse "r" sampleMsg
            [⟨"mods", false⟩, ⟨"admin", false⟩]).1 ∧
    TraceEv.invoke "admin" sampleMsg
        ∈ (dispatchHandlers gateAllFalse "r" sampleMsg
            [⟨"mods", false⟩, ⟨"admin", false⟩]).1 := by
  have h := claim_C3_disabled_module_not_invoked gateAllFalse "r" sampleMsg
    [⟨"mods", false⟩, ⟨"admin", false⟩] "mods" (by decide) rfl (fun _ => ⟨false, rfl⟩)
  exact ⟨h.1,
    h.2.1 ⟨"admin", false⟩ (List.mem_cons_of_mem _ (List.mem_cons_self _ _)) (Or.inl rfl)⟩

/-- Claim C9: the per-handler failure isolation does not cover the
Settings Gate — if the `isModuleEnabled` lookup rejects for a
non-`"admin"` handler, the rejection propagates out of dispatch, and no
handler from that position on (the failing one, or any later one,
`"admin"` included) is invoked for this message: the trace ends at that
gate query. -/
theorem claim_C9_gate_rejection_propagates
    (gate : String → String → Except String Bool) (room : String) (msg : Message)
    (xs ys : List HandlerEntry) (h : HandlerEntry) (e : String)
    (hok : (dispatchHandlers gate room msg xs).2 = none)
    (hadm : h.moduleName ≠ "admin") (hg : gate room h.moduleName = Except.error e) :
    dispatchHandlers gate room msg (xs ++ h :: ys)
      = ((dispatchHandlers gate room msg xs).1 ++ [TraceEv.gateQuery room h.moduleName],
         some e) := by
  rw [dispatchHandlers_append_ok gate room msg xs (h :: ys) hok]
  have hstep : dispatchHandlers gate room msg (h :: ys)
      = ([TraceEv.gateQuery room h.moduleName], some e) := by
    simp [dispatchHandlers, hadm, hg]
  rw [hstep]

theorem claim_C9_gate_rejection_propagates_witness :
    dispatchHandlers gateErrOnB "r" sampleMsg
        ([⟨"a", false⟩] ++ ⟨"b", false⟩ :: [⟨"admin", false⟩])
      = ((dispatchHandlers gateErrOnB "r" sampleMsg [⟨"a", false⟩]).1
          ++ [TraceEv.gateQuery "r" "b"], some "boom") :=
  claim_C9_gate_rejection_propagates gateErrOnB "r" sampleMsg [⟨"a", false⟩]
    [⟨"admin", false⟩] ⟨"b", false⟩ "boom" rfl (by decide) rfl

/-- Claim C8: the shutdown handler is idempotent under repeated
termination signals — with no active client the entry step is a no-op;
on the first invocation the client reference is cleared in the atomic
segment before any `await`; and for any interleaving in which the second
signal's handler starts after the first one's entry segment, the second
invocation performs no transport operation and does not exit the
process (its action list stays empty). -/
theorem claim_C8_shutdown_idempotent :
    (∀ online : Nat → Bool, exitStep online none ExitPC.start = (none, ExitPC.done, [])) ∧
    (∀ (online : Nat → Bool) (c : ClientRef),
      exitStep online (some c) ExitPC.start = (none, ExitPC.grace, [ExitAction.stop])) ∧
    (∀ (online : Nat → Bool) (c : ClientRef) (sched : List Bool),
      (runExit online (true :: sched)
          { client := some c, pc1 := ExitPC.start, pc2 := ExitPC.start,
            acts1 := [], acts2 := [] }).acts2 = []) := by
  refine ⟨fun online => rfl, fun online c => rfl, fun online c sched => ?_⟩
  show (runExit online sched
      (sysStep online ⟨some c, ExitPC.start, ExitPC.start, [], []⟩ true)).acts2 = []
  exact runExit_acts2_nil online sched _ rfl (Or.inl rfl) rfl

end Botzilla
